import Mathlib

/-!
Verification development for the rust-solv repository.

The repository ships two source files, `src/main.rs` (the command-line
caller) and `src/repo.rs` (the metadata loader).  The satisfiability core
(`solve` module: version comparison, capability index, solver) is declared
and called by `main.rs` but its source is not part of the repository
snapshot, so the core is modelled here from the design document, faithful
to its words (each such definition carries a doc comment starting with
"Modelled from the spec:").  The parts of `main.rs` and `repo.rs` that the
claims touch are embedded directly from the Rust source.
-/

/-! ## Version and capability model (solver core) -/

/-- Modelled from the spec: numeric comparison used for epochs and digit
runs.  The `solve` module is missing from the snapshot; the spec (section
4.1) asks for plain numeric comparison. -/
def natCmp (a b : Nat) : Ordering :=
  if a < b then .lt else if b < a then .gt else .eq

/-- Modelled from the spec: character comparison by code point, used for
the lexicographic comparison of non-digit runs (section 4.1). -/
def charCmp (a b : Char) : Ordering :=
  natCmp a.toNat b.toNat

/-- Modelled from the spec: lexicographic comparison of character runs
(section 4.1, "non-digit runs compare lexicographically by character"). -/
def lexCmp : List Char → List Char → Ordering
  | [], [] => .eq
  | [], _ :: _ => .lt
  | _ :: _, [] => .gt
  | a :: as, b :: bs =>
    match charCmp a b with
    | .eq => lexCmp as bs
    | o => o

/-- Modelled from the spec: one maximal run of a version string, either a
digit run (kept as its integer value, leading zeros ignored) or a
non-digit run (kept as its characters), section 4.1. -/
inductive VTok where
  | num (n : Nat)
  | str (s : List Char)
deriving DecidableEq, Repr

/-- Modelled from the spec: value of a digit run as an arbitrary-precision
integer (leading zeros ignored), section 4.1. -/
def digitsVal (run : List Char) : Nat :=
  run.foldl (fun n c => n * 10 + (c.toNat - 48)) 0

/-- Modelled from the spec: turn a pending run (digit flag, characters in
order) into a token. -/
def flushRun : Option (Bool × List Char) → List VTok
  | none => []
  | some (true, run) => [.num (digitsVal run)]
  | some (false, run) => [.str run]

/-- Modelled from the spec: split a version string into alternating
maximal runs of digits and of non-digit characters (section 4.1),
accumulating the current run. -/
def tokenizeAux : Option (Bool × List Char) → List Char → List VTok
  | cur, [] => flushRun cur
  | none, c :: cs => tokenizeAux (some (c.isDigit, [c])) cs
  | some (isd, run), c :: cs =>
    if c.isDigit = isd then tokenizeAux (some (isd, run ++ [c])) cs
    else flushRun (some (isd, run)) ++ tokenizeAux (some (c.isDigit, [c])) cs

/-- Modelled from the spec: tokenization of a version string (section
4.1). -/
def tokenize (s : String) : List VTok :=
  tokenizeAux none s.data

/-- Modelled from the spec: comparison of corresponding runs — digit runs
as integers, non-digit runs lexicographically; a digit run against a
non-digit run counts as newer, the conventional package-manager rule the
spec appeals to (section 4.1). -/
def tokCmp : VTok → VTok → Ordering
  | .num a, .num b => natCmp a b
  | .str a, .str b => lexCmp a b
  | .num _, .str _ => .gt
  | .str _, .num _ => .lt

/-- Modelled from the spec: whether a run is an all-alpha run, the case
the exhaustion rule of section 4.1 singles out. -/
def isAlphaRun : VTok → Bool
  | .num _ => false
  | .str s => s.all Char.isAlpha

/-- Modelled from the spec: positional comparison of run lists with the
exhaustion rule of section 4.1 — the exhausted string compares smaller,
except that an all-alpha remaining run makes the longer string compare
smaller. -/
def segListCmp : List VTok → List VTok → Ordering
  | [], [] => .eq
  | [], t :: _ => if isAlphaRun t then .gt else .lt
  | t :: _, [] => if isAlphaRun t then .lt else .gt
  | t :: ts, u :: us =>
    match tokCmp t u with
    | .eq => segListCmp ts us
    | o => o

/-- Modelled from the spec: segment-wise comparison of two version
strings (section 4.1, step 2, also used for releases in step 3). -/
def segCmp (a b : String) : Ordering :=
  segListCmp (tokenize a) (tokenize b)

/-- Modelled from the spec: a package version, epoch a non-negative
integer (missing epoch already normalized to 0 by the loader), version
and release strings (section 3). -/
structure Version where
  epoch : Nat
  ver : String
  rel : String
deriving DecidableEq, Repr

/-- Modelled from the spec: total comparison of versions — epoch
numerically, then version string segment-wise, then release string
segment-wise (section 4.1). -/
def vercmp (a b : Version) : Ordering :=
  ((natCmp a.epoch b.epoch).then (segCmp a.ver b.ver)).then (segCmp a.rel b.rel)

/-- Modelled from the spec: the five comparators of a version constraint
(section 3). -/
inductive Comparator where
  | eq
  | lt
  | le
  | gt
  | ge
deriving DecidableEq, Repr

/-- Modelled from the spec: one entry of a provides/requires/conflicts/
obsoletes list — a capability name with an optional comparator-version
constraint (section 3). -/
structure CapabilityRef where
  name : String
  constraint : Option (Comparator × Version)
deriving DecidableEq, Repr

/-- Modelled from the spec: whether an ordering outcome is the relation a
comparator names (section 4.1, constraint satisfaction). -/
def ordMatches : Comparator → Ordering → Bool
  | .eq, o => o == .eq
  | .lt, o => o == .lt
  | .le, o => o == .lt || o == .eq
  | .gt, o => o == .gt
  | .ge, o => o == .gt || o == .eq

/-- Modelled from the spec: constraint satisfaction (section 4.1).  A
requirement with no constraint is satisfied by any version, including a
capability carrying no version; a constrained requirement needs a
candidate version standing in the named relation to the constraint
version (an unversioned candidate does not satisfy a versioned
constraint, the conventional rule, the spec being silent on that pair). -/
def satisfiesConstraint (provided : Option Version) (c : Option (Comparator × Version)) : Bool :=
  match c with
  | none => true
  | some (cmp, v) =>
    match provided with
    | none => false
    | some w => ordMatches cmp (vercmp w v)

/-- Modelled from the spec: a package record — name, kind, version and the
four capability lists (section 3). -/
structure Package where
  name : String
  kind : String
  version : Version
  provides : List CapabilityRef
  requires : List CapabilityRef
  conflicts : List CapabilityRef
  obsoletes : List CapabilityRef
deriving DecidableEq, Repr

/-- Modelled from the spec: the package catalog of one repository
(section 3). -/
structure Catalog where
  repo_name : String
  packages : List Package
deriving Repr

/-- Modelled from the spec: effective provides list — the explicit
provides plus the implicit self-provide of the package's own name at its
own version with comparator EQ (section 3, self-provide invariant). -/
def effectiveProvides (p : Package) : List CapabilityRef :=
  p.provides ++ [⟨p.name, some (.eq, p.version)⟩]

/-! ## Capability index and solver (solver core) -/

/-- Modelled from the spec: capability-index lookup fused with its build
(sections 4.3) — for a capability name, the providers in catalog order,
each paired with the provided version if any.  Buckets follow catalog
package order; an unknown name yields the empty sequence. -/
def lookupProviders (cat : Catalog) (n : String) : List (Package × Option Version) :=
  cat.packages.flatMap fun p =>
    (effectiveProvides p).filterMap fun c =>
      if c.name == n then some (p, c.constraint.map Prod.snd) else none

/-- Modelled from the spec: generic deterministic pick over a list — keep
the current best, replace it only when the candidate is strictly better,
so ties are broken by list order (sections 4.4 steps 1 and 2). -/
def pickBy {α : Type} (better : α → α → Bool) (l : List α) : Option α :=
  l.foldl
    (fun acc x =>
      match acc with
      | none => some x
      | some q => if better x q then some x else some q)
    none

/-- Modelled from the spec: root selection (section 4.4 step 1) — among
the packages whose name equals the requested name, the one with the
greatest version, ties broken by catalog order. -/
def selectRoot (cat : Catalog) (n : String) : Option Package :=
  pickBy (fun p q => vercmp p.version q.version == .gt)
    (cat.packages.filter fun p => p.name == n)

/-- Modelled from the spec: provider selection (section 4.4 step 2) — the
satisfying candidate with the greatest provided version, ties broken by
index order; a candidate without a version never displaces one with a
version. -/
def selectProvider (l : List (Package × Option Version)) : Option (Package × Option Version) :=
  pickBy
    (fun pv qv =>
      match pv.2, qv.2 with
      | some v, some w => vercmp v w == .gt
      | some _, none => true
      | none, _ => false)
    l

/-- Modelled from the spec: package identity used for the selected set
(section 3, ResolutionState) — name and version. -/
def sameIdentity (p q : Package) : Bool :=
  p.name == q.name && decide (p.version = q.version)

/-- Modelled from the spec: add a provider to the selected set, a no-op
when a package of the same identity is already present (section 4.4 step
2). -/
def insertSelected (p : Package) (sel : List Package) : List Package :=
  if sel.any (sameIdentity p) then sel else sel ++ [p]

/-- Modelled from the spec: whether a provides entry matches a conflicts
or obsoletes entry — same capability name and the provided version
satisfies the entry's constraint (section 4.4 step 3). -/
def capMatches (prov c : CapabilityRef) : Bool :=
  prov.name == c.name && satisfiesConstraint (prov.constraint.map Prod.snd) c.constraint

/-- Modelled from the spec: conflict and obsoletion check over the
selected closure (section 4.4 step 3) — no selected package may provide a
capability matching another selected package's conflicts or obsoletes
entry; a package is excluded from matching its own entries. -/
def conflictFree (sel : List Package) : Bool :=
  sel.all fun p =>
    (p.conflicts ++ p.obsoletes).all fun c =>
      sel.all fun q =>
        sameIdentity p q || (effectiveProvides q).all fun prov => !capMatches prov c

/-- Modelled from the spec: every requirement the closure loop can ever
enqueue comes from some catalog package's requires list (section 4.4 step
2 enqueues the selected provider's requires; the root is a catalog
package). -/
def refUniverse (cat : Catalog) : List CapabilityRef :=
  cat.packages.flatMap fun p => p.requires

/-- Modelled from the spec: an upper bound on how many requirements one
loop step can enqueue — the longest requires list in the catalog. -/
def maxReq (cat : Catalog) : Nat :=
  (cat.packages.map fun p => p.requires.length).foldr max 0

/-- Modelled from the spec: the closure work loop of section 4.4 step 2
followed by the step 3 check, written with explicit fuel so that every
run is finite by construction; the fuel bound below is proved sufficient,
so the out-of-fuel marker `none` is never returned.  Pop a requirement;
skip it when already visited; otherwise filter its providers to the
satisfying ones, fail with `some false` when none remains, else select
one provider, add it to the selected set and enqueue its requires. -/
def solveLoop (cat : Catalog) : Nat → List Package → List CapabilityRef → List CapabilityRef → Option Bool
  | 0, _, _, _ => none
  | _ + 1, sel, _, [] => some (conflictFree sel)
  | fuel + 1, sel, visited, r :: rest =>
    if r ∈ visited then solveLoop cat fuel sel visited rest
    else
      match selectProvider ((lookupProviders cat r.name).filter fun pv =>
          satisfiesConstraint pv.2 r.constraint) with
      | none => some false
      | some (p, _) =>
        solveLoop cat fuel (insertSelected p sel) (r :: visited) (rest ++ p.requires)

/-- Modelled from the spec: fuel that provably outlasts the closure loop
(see the termination theorem), derived from the catalog size and the root
package's requires list. -/
def solveBound (cat : Catalog) (root : Package) : Nat :=
  ((refUniverse cat).length + 1) * (maxReq cat + 1) + root.requires.length + 1

/-- Modelled from the spec: the single error of the core (section 7) —
the requested root package name has zero matches in the catalog. -/
inductive SolveError where
  | packageNotFound
deriving DecidableEq, Repr

/-- Modelled from the spec: the solver entry point `check` of section 4.4
(the `check_package_satisfiability_in_repo` that `main.rs` calls) — locate
the root, then run the closure loop and the conflict check; the fuel
default can never engage, by the termination theorem. -/
def check (cat : Catalog) (n : String) : Except SolveError Bool :=
  match selectRoot cat n with
  | none => .error .packageNotFound
  | some root =>
    .ok ((solveLoop cat (solveBound cat root) [root] [] root.requires).getD false)

/-! ## Helper lemmas about the pick, index and bound functions -/

theorem pickBy_aux_mem {α : Type} (better : α → α → Bool) :
    ∀ (l : List α) (acc : Option α) (x : α),
      l.foldl
        (fun acc y =>
          match acc with
          | none => some y
          | some q => if better y q then some y else some q)
        acc = some x →
      x ∈ l ∨ acc = some x := by
  intro l
  induction l with
  | nil => intro acc x h; exact Or.inr h
  | cons a l ih =>
    intro acc x h
    simp only [List.foldl_cons] at h
    rcases ih _ x h with hl | hacc
    · exact Or.inl (List.mem_cons_of_mem a hl)
    · cases acc with
      | none =>
        simp only [Option.some.injEq] at hacc
        exact Or.inl (hacc ▸ List.mem_cons_self a l)
      | some q =>
        simp only [] at hacc
        by_cases hb : better a q
        · rw [if_pos hb, Option.some.injEq] at hacc
          exact Or.inl (hacc ▸ List.mem_cons_self a l)
        · rw [if_neg hb] at hacc
          exact Or.inr hacc

theorem pickBy_mem {α : Type} (better : α → α → Bool) (l : List α) (x : α)
    (h : pickBy better l = some x) : x ∈ l := by
  rcases pickBy_aux_mem better l none x h with hl | hacc
  · exact hl
  · exact absurd hacc (by simp)

theorem pickBy_aux_ne_none {α : Type} (better : α → α → Bool) :
    ∀ (l : List α) (q : α),
      l.foldl
        (fun acc y =>
          match acc with
          | none => some y
          | some q => if better y q then some y else some q)
        (some q) ≠ none := by
  intro l
  induction l with
  | nil => intro q h; simp at h
  | cons a l ih =>
    intro q
    simp only [List.foldl_cons]
    by_cases hb : better a q
    · simpa [hb] using ih a
    · simpa [hb] using ih q

theorem pickBy_eq_none_iff {α : Type} (better : α → α → Bool) (l : List α) :
    pickBy better l = none ↔ l = [] := by
  cases l with
  | nil => simp [pickBy]
  | cons a l =>
    constructor
    · intro h
      exact absurd h (by simpa [pickBy] using pickBy_aux_ne_none better l a)
    · intro h; cases h

theorem selectRoot_mem (cat : Catalog) (n : String) (p : Package)
    (h : selectRoot cat n = some p) : p ∈ cat.packages ∧ p.name = n := by
  have hm := pickBy_mem _ _ _ h
  rw [List.mem_filter] at hm
  exact ⟨hm.1, by simpa using hm.2⟩

theorem selectRoot_eq_none_iff (cat : Catalog) (n : String) :
    selectRoot cat n = none ↔ ∀ p ∈ cat.packages, ¬ p.name = n := by
  rw [selectRoot, pickBy_eq_none_iff, List.filter_eq_nil_iff]
  simp

theorem lookupProviders_fst_mem (cat : Catalog) (n : String) (pv : Package × Option Version)
    (h : pv ∈ lookupProviders cat n) : pv.1 ∈ cat.packages := by
  rw [lookupProviders, List.mem_flatMap] at h
  obtain ⟨p, hp, hin⟩ := h
  rw [List.mem_filterMap] at hin
  obtain ⟨c, _, hc⟩ := hin
  by_cases hn : c.name == n
  · rw [if_pos hn] at hc
    cases hc
    exact hp
  · rw [if_neg hn] at hc
    cases hc

theorem lookupProviders_eq_nil (cat : Catalog) (n : String)
    (h : ∀ p ∈ cat.packages, ∀ c ∈ effectiveProvides p, ¬ c.name = n) :
    lookupProviders cat n = [] := by
  rw [lookupProviders, List.flatMap_eq_nil_iff]
  intro p hp
  rw [List.filterMap_eq_nil_iff]
  intro c hc
  rw [if_neg (by simpa using h p hp c hc)]

theorem selfProvide_mem_lookupProviders (cat : Catalog) (p : Package)
    (hp : p ∈ cat.packages) :
    (p, some p.version) ∈ lookupProviders cat p.name := by
  rw [lookupProviders, List.mem_flatMap]
  refine ⟨p, hp, ?_⟩
  rw [List.mem_filterMap]
  refine ⟨⟨p.name, some (.eq, p.version)⟩, ?_, ?_⟩
  · simp [effectiveProvides]
  · simp

theorem le_foldr_max (l : List Nat) (a : Nat) (h : a ∈ l) : a ≤ l.foldr max 0 := by
  induction l with
  | nil => cases h
  | cons b l ih =>
    rcases List.mem_cons.mp h with rfl | hl
    · exact le_max_left _ _
    · exact le_trans (ih hl) (le_max_right _ _)

theorem requires_length_le_maxReq (cat : Catalog) (p : Package)
    (hp : p ∈ cat.packages) : p.requires.length ≤ maxReq cat :=
  le_foldr_max _ _ (List.mem_map.mpr ⟨p, hp, rfl⟩)

theorem mem_refUniverse (cat : Catalog) (p : Package) (r : CapabilityRef)
    (hp : p ∈ cat.packages) (hr : r ∈ p.requires) : r ∈ refUniverse cat :=
  List.mem_flatMap.mpr ⟨p, hp, hr⟩

/-! ## Termination of the closure loop -/

/-- Measure of the remaining work of the closure loop: requirements of
the catalog not yet visited, weighted by the most a step can enqueue,
plus the frontier still to pop. -/
def loopMeasure (cat : Catalog) (visited frontier : List CapabilityRef) : Nat :=
  ((refUniverse cat).toFinset \ visited.toFinset).card * (maxReq cat + 1) + frontier.length

theorem solveLoop_ne_none (cat : Catalog) :
    ∀ (fuel : Nat) (sel : List Package) (visited frontier : List CapabilityRef),
      (∀ r ∈ frontier, r ∈ refUniverse cat) →
      loopMeasure cat visited frontier < fuel →
      solveLoop cat fuel sel visited frontier ≠ none := by
  intro fuel
  induction fuel with
  | zero =>
    intro sel visited frontier hf hm
    exact absurd hm (Nat.not_lt_zero _)
  | succ fuel ih =>
    intro sel visited frontier hf hm
    cases frontier with
    | nil => simp [solveLoop]
    | cons r rest =>
      simp only [solveLoop]
      by_cases hv : r ∈ visited
      · rw [if_pos hv]
        apply ih
        · intro x hx; exact hf x (List.mem_cons_of_mem r hx)
        · unfold loopMeasure at hm ⊢
          generalize ((refUniverse cat).toFinset \ visited.toFinset).card * (maxReq cat + 1) = X at hm ⊢
          simp only [List.length_cons] at hm
          omega
      · rw [if_neg hv]
        rcases hsel : selectProvider ((lookupProviders cat r.name).filter fun pv =>
            satisfiesConstraint pv.2 r.constraint) with _ | ⟨p, v⟩
        · simp
        · show solveLoop cat fuel (insertSelected p sel) (r :: visited) (rest ++ p.requires) ≠ none
          have hp : p ∈ cat.packages := by
            have hmem := pickBy_mem _ _ _ hsel
            rw [List.mem_filter] at hmem
            exact lookupProviders_fst_mem cat r.name (p, v) hmem.1
          apply ih
          · intro x hx
            rcases List.mem_append.mp hx with hx | hx
            · exact hf x (List.mem_cons_of_mem r hx)
            · exact mem_refUniverse cat p x hp hx
          · have hrU : r ∈ refUniverse cat := hf r (List.mem_cons_self r rest)
            have hUV : r ∈ (refUniverse cat).toFinset \ visited.toFinset :=
              Finset.mem_sdiff.mpr
                ⟨List.mem_toFinset.mpr hrU, fun hc => hv (List.mem_toFinset.mp hc)⟩
            have hset : (refUniverse cat).toFinset \ (r :: visited).toFinset =
                ((refUniverse cat).toFinset \ visited.toFinset).erase r := by
              rw [List.toFinset_cons]
              ext x
              simp only [Finset.mem_sdiff, Finset.mem_erase, Finset.mem_insert]
              tauto
            have hcard : (((refUniverse cat).toFinset \ visited.toFinset).erase r).card =
                ((refUniverse cat).toFinset \ visited.toFinset).card - 1 :=
              Finset.card_erase_of_mem hUV
            have hpos : 0 < ((refUniverse cat).toFinset \ visited.toFinset).card :=
              Finset.card_pos.mpr ⟨r, hUV⟩
            have hlen : p.requires.length ≤ maxReq cat :=
              requires_length_le_maxReq cat p hp
            unfold loopMeasure at hm ⊢
            rw [hset, hcard, List.length_append]
            simp only [List.length_cons] at hm
            obtain ⟨d, hd⟩ : ∃ d, ((refUniverse cat).toFinset \ visited.toFinset).card = d + 1 :=
              ⟨((refUniverse cat).toFinset \ visited.toFinset).card - 1, by omega⟩
            rw [hd] at hm ⊢
            have hmul : (d + 1) * (maxReq cat + 1) = d * (maxReq cat + 1) + (maxReq cat + 1) := by
              ring
            rw [hmul] at hm
            simp only [Nat.add_sub_cancel]
            generalize d * (maxReq cat + 1) = X at hm ⊢
            omega

theorem loopMeasure_init_lt (cat : Catalog) (root : Package) :
    loopMeasure cat [] root.requires < solveBound cat root := by
  unfold loopMeasure solveBound
  have h1 : ((refUniverse cat).toFinset \ ([] : List CapabilityRef).toFinset).card ≤
      (refUniverse cat).length := by
    simpa using (refUniverse cat).toFinset_card_le
  have h2 : ((refUniverse cat).toFinset \ ([] : List CapabilityRef).toFinset).card *
      (maxReq cat + 1) ≤ (refUniverse cat).length * (maxReq cat + 1) :=
    Nat.mul_le_mul_right _ h1
  have h3 : ((refUniverse cat).length + 1) * (maxReq cat + 1) =
      (refUniverse cat).length * (maxReq cat + 1) + (maxReq cat + 1) := by
    ring
  rw [h3]
  generalize hX : ((refUniverse cat).toFinset \ ([] : List CapabilityRef).toFinset).card *
      (maxReq cat + 1) = X at h2
  generalize (refUniverse cat).length * (maxReq cat + 1) = Y at h2 ⊢
  omega

theorem check_run_ne_none (cat : Catalog) (n : String) (root : Package)
    (h : selectRoot cat n = some root) :
    solveLoop cat (solveBound cat root) [root] [] root.requires ≠ none := by
  apply solveLoop_ne_none
  · intro r hr
    exact mem_refUniverse cat root r (selectRoot_mem cat n root h).1 hr
  · exact loopMeasure_init_lt cat root

/-! ## Behavior of the loop on a requirement without providers -/

theorem solveLoop_no_provider (cat : Catalog) (r0 : CapabilityRef)
    (hnil : lookupProviders cat r0.name = []) :
    ∀ (fuel : Nat) (sel : List Package) (visited frontier : List CapabilityRef),
      r0 ∈ frontier → r0 ∉ visited →
      solveLoop cat fuel sel visited frontier = some false ∨
      solveLoop cat fuel sel visited frontier = none := by
  intro fuel
  induction fuel with
  | zero => intro sel visited frontier _ _; exact Or.inr rfl
  | succ fuel ih =>
    intro sel visited frontier hin hnv
    cases frontier with
    | nil => cases hin
    | cons r rest =>
      simp only [solveLoop]
      by_cases hv : r ∈ visited
      · rw [if_pos hv]
        apply ih
        · rcases List.mem_cons.mp hin with rfl | h
          · exact absurd hv hnv
          · exact h
        · exact hnv
      · rw [if_neg hv]
        by_cases heq : r = r0
        · subst heq
          rw [hnil]
          exact Or.inl rfl
        · rcases hsel : selectProvider ((lookupProviders cat r.name).filter fun pv =>
              satisfiesConstraint pv.2 r.constraint) with _ | ⟨p, v⟩
          · exact Or.inl rfl
          · show solveLoop cat fuel (insertSelected p sel) (r :: visited) (rest ++ p.requires) =
                some false ∨ _ = none
            apply ih
            · have hr0 : r0 ∈ rest := by
                rcases List.mem_cons.mp hin with h | h
                · exact absurd h.symm heq
                · exact h
              exact List.mem_append_left _ hr0
            · intro hc
              rcases List.mem_cons.mp hc with h | h
              · exact heq h.symm
              · exact hnv h

/-! ## Shape of the check result -/

theorem check_error_iff (cat : Catalog) (n : String) :
    check cat n = .error .packageNotFound ↔ ∀ p ∈ cat.packages, ¬ p.name = n := by
  rw [← selectRoot_eq_none_iff]
  constructor
  · intro h
    rcases hs : selectRoot cat n with _ | root
    · rfl
    · rw [check, hs] at h
      cases h
  · intro h
    rw [check, h]

theorem check_ok_of_root (cat : Catalog) (n : String) (root : Package)
    (h : selectRoot cat n = some root) :
    check cat n =
      .ok ((solveLoop cat (solveBound cat root) [root] [] root.requires).getD false) := by
  rw [check, h]

/-! ## Reflexivity and antisymmetry of the comparisons -/

theorem natCmp_self (a : Nat) : natCmp a a = .eq := by
  simp [natCmp]

theorem lexCmp_self : ∀ s : List Char, lexCmp s s = .eq := by
  intro s
  induction s with
  | nil => rfl
  | cons c cs ih => simp [lexCmp, charCmp, natCmp_self, ih]

theorem tokCmp_self : ∀ t : VTok, tokCmp t t = .eq := by
  intro t
  cases t with
  | num n => simp [tokCmp, natCmp_self]
  | str s => simp [tokCmp, lexCmp_self]

theorem segListCmp_self : ∀ l : List VTok, segListCmp l l = .eq := by
  intro l
  induction l with
  | nil => rfl
  | cons t ts ih => simp [segListCmp, tokCmp_self, ih]

theorem vercmp_self (v : Version) : vercmp v v = .eq := by
  simp [vercmp, natCmp_self, segCmp, segListCmp_self, Ordering.then]

theorem natCmp_swap (a b : Nat) : natCmp b a = (natCmp a b).swap := by
  rcases Nat.lt_trichotomy a b with h | h | h
  · simp [natCmp, h, Nat.lt_asymm h, Ordering.swap]
  · subst h
    simp [natCmp, Ordering.swap]
  · simp [natCmp, h, Nat.lt_asymm h, Ordering.swap]

theorem lexCmp_swap : ∀ s t : List Char, lexCmp t s = (lexCmp s t).swap := by
  intro s
  induction s with
  | nil => intro t; cases t <;> rfl
  | cons a as ih =>
    intro t
    cases t with
    | nil => rfl
    | cons b bs =>
      simp only [lexCmp]
      rw [show charCmp b a = (charCmp a b).swap from natCmp_swap _ _]
      cases h : charCmp a b <;> simp [Ordering.swap, ih]

theorem tokCmp_swap : ∀ t u : VTok, tokCmp u t = (tokCmp t u).swap := by
  intro t u
  cases t with
  | num a =>
    cases u with
    | num b => exact natCmp_swap a b
    | str s => rfl
  | str s =>
    cases u with
    | num b => rfl
    | str s' => exact lexCmp_swap s s'

theorem segListCmp_swap : ∀ l m : List VTok, segListCmp m l = (segListCmp l m).swap := by
  intro l
  induction l with
  | nil =>
    intro m
    cases m with
    | nil => rfl
    | cons t ts =>
      simp only [segListCmp]
      by_cases h : isAlphaRun t <;> simp [h, Ordering.swap]
  | cons t ts ih =>
    intro m
    cases m with
    | nil =>
      simp only [segListCmp]
      by_cases h : isAlphaRun t <;> simp [h, Ordering.swap]
    | cons u us =>
      simp only [segListCmp]
      rw [tokCmp_swap t u]
      cases h : tokCmp t u <;> simp [Ordering.swap, ih]

theorem vercmp_swap (a b : Version) : vercmp b a = (vercmp a b).swap := by
  unfold vercmp segCmp
  rw [natCmp_swap a.epoch b.epoch, segListCmp_swap (tokenize a.ver) (tokenize b.ver),
    segListCmp_swap (tokenize a.rel) (tokenize b.rel)]
  cases natCmp a.epoch b.epoch <;>
    cases segListCmp (tokenize a.ver) (tokenize b.ver) <;>
      simp [Ordering.then, Ordering.swap]

/-! ## Embedding of the command-line caller (src/main.rs) -/

/-- User-facing outcome printed for one requested package name by the
match of src/main.rs lines 18-22. -/
inductive Outcome where
  | satisfiable
  | unsatisfiable
  | error
deriving DecidableEq, Repr

/-- Translation of one check result into the user-facing outcome, as the
match arms of src/main.rs lines 18-22 do. -/
def reportOutcome (cat : Catalog) (n : String) : Outcome :=
  match check cat n with
  | .ok true => .satisfiable
  | .ok false => .unsatisfiable
  | .error _ => .error

/-- Per-package loop of src/main.rs lines 17-23: each requested name is
handled in order and the loop body never breaks or returns early, so an
error outcome for one name does not stop the following names. -/
def runAll (cat : Catalog) (names : List String) : List Outcome :=
  names.map (reportOutcome cat)

/-- First step taken by main: the panic on an empty package list, or the
configuration load that otherwise follows (src/main.rs lines 5-14). -/
inductive MainStep where
  | panicked (msg : String)
  | loadConfig (path : String)
deriving DecidableEq, Repr

/-- Embedding of the entry of main (src/main.rs lines 5-14): the argument
list (program name first) is filtered to the entries of index greater
than zero; when no package name remains, main panics before any
configuration or network access, otherwise the configuration file is
loaded next. -/
def mainModel (argv : List String) : MainStep :=
  let packages := (argv.enum.filter fun iv => decide (0 < iv.1)).map Prod.snd
  if packages.isEmpty then .panicked "Package name not found!"
  else .loadConfig "~/.config/rust-solv/config.toml"

/-! ## Embedding of the metadata loader (src/repo.rs) -/

namespace repo

/-- Embedding of the Version struct of src/repo.rs lines 12-17: all
three fields are plain strings and all are required by the serde
derive. -/
structure Version where
  epoch : String
  ver : String
  rel : String
deriving DecidableEq, Repr

/-- Raw attributes of one version element of primary.xml, each possibly
absent in the document. -/
structure RawVersion where
  epoch : Option String
  ver : Option String
  rel : Option String
deriving DecidableEq, Repr

/-- Deserialization of a version element into the Version struct of
src/repo.rs lines 12-17, with the required-field semantics of the serde
derive used there: a missing field is an error and nothing is
defaulted. -/
def deVersion (r : RawVersion) : Except String Version :=
  match r.epoch with
  | none => .error "missing field epoch"
  | some e =>
    match r.ver with
    | none => .error "missing field ver"
    | some v =>
      match r.rel with
      | none => .error "missing field rel"
      | some l => .ok ⟨e, v, l⟩

end repo

/-! ## Concrete fixtures used by the witnesses and counterexamples -/

def ver1 : Version := ⟨0, "1", "1"⟩

def ver2 : Version := ⟨0, "2", "1"⟩

/-- Package A at version 1 requiring a capability nobody provides. -/
def pkgAOld : Package := ⟨"A", "rpm", ver1, [], [⟨"missing-lib", none⟩], [], []⟩

/-- Package A at version 2 with no requirements and no explicit provides. -/
def pkgANew : Package := ⟨"A", "rpm", ver2, [], [], [], []⟩

/-- Catalog with two publishes of A: the older requires missing-lib, the
newer requires nothing. -/
def shadowCat : Catalog := ⟨"sample", [pkgAOld, pkgANew]⟩

/-- Catalog whose only package requires a capability nobody provides. -/
def missingCat : Catalog := ⟨"sample", [pkgAOld]⟩

def cycA : Package := ⟨"A", "rpm", ver1, [], [⟨"B", none⟩], [], []⟩

def cycB : Package := ⟨"B", "rpm", ver1, [], [⟨"A", none⟩], [], []⟩

/-- Catalog where A requires B and B requires A. -/
def cycCat : Catalog := ⟨"sample", [cycA, cycB]⟩

def verEmpty : Version := ⟨0, "", "1"⟩

def verDot : Version := ⟨0, ".", "1"⟩

def verAlpha : Version := ⟨0, "a", "1"⟩

/-! ## Claim theorems -/

/-- C1: the satisfiability check is deterministic — two calls with the
same catalog and the same package name return identical results; the
outcome is a function of the catalog and the name alone, with no other
input (no randomness, no ambient iteration order). -/
theorem check_deterministic (cat cat' : Catalog) (n n' : String)
    (hc : cat = cat') (hn : n = n') : check cat n = check cat' n' := by
  subst hc
  subst hn
  rfl

/-- Witness for check_deterministic at a concrete catalog and name. -/
theorem check_deterministic_witness : check cycCat "A" = check cycCat "A" :=
  check_deterministic cycCat cycCat "A" "A" rfl rfl

/-- C2: check returns Err(PackageNotFound) exactly when no package in
the catalog bears the requested name, PackageNotFound is the only
possible error, and whenever the name is present the result is a boolean
Ok value, never an error. -/
theorem check_error_characterization (cat : Catalog) (n : String) :
    (check cat n = .error .packageNotFound ↔ ∀ p ∈ cat.packages, ¬ p.name = n) ∧
    (∀ e, check cat n = .error e → e = .packageNotFound) ∧
    ((∃ p ∈ cat.packages, p.name = n) → ∃ b, check cat n = .ok b) := by
  refine ⟨check_error_iff cat n, ?_, ?_⟩
  · intro e _
    cases e
    rfl
  · intro ⟨p, hp, hn⟩
    rcases hs : selectRoot cat n with _ | root
    · exact absurd hn ((selectRoot_eq_none_iff cat n).mp hs p hp)
    · exact ⟨_, check_ok_of_root cat n root hs⟩

/-- Witness for check_error_characterization: an unknown name on the
sample catalog yields PackageNotFound. -/
theorem check_error_characterization_witness :
    check shadowCat "does-not-exist" = .error .packageNotFound :=
  (check_error_characterization shadowCat "does-not-exist").1.mpr (by decide)

/-- C3 counterexample: shadowCat contains a package named A requiring
missing-lib, which no package provides explicitly or via self-provide,
yet check selects the newer publish of A and returns Ok(true) rather
than Ok(false), so the claim fails as stated. -/
theorem check_missing_provider_not_always_false :
    pkgAOld ∈ shadowCat.packages ∧
    (⟨"missing-lib", none⟩ : CapabilityRef) ∈ pkgAOld.requires ∧
    (∀ p ∈ shadowCat.packages, ∀ c ∈ effectiveProvides p, ¬ c.name = "missing-lib") ∧
    check shadowCat "A" = .ok true := by
  refine ⟨by decide, by decide, by decide, by rfl⟩

/-- C3 (amended): when the root package selected for the requested name
(the greatest-version package with that name) requires a capability that
no package provides, explicitly or via self-provide, check returns
Ok(false). -/
theorem check_root_missing_provider_unsat (cat : Catalog) (n : String) (root : Package)
    (r : CapabilityRef) (hroot : selectRoot cat n = some root) (hr : r ∈ root.requires)
    (hnone : ∀ p ∈ cat.packages, ∀ c ∈ effectiveProvides p, ¬ c.name = r.name) :
    check cat n = .ok false := by
  have hnil := lookupProviders_eq_nil cat r.name hnone
  have hrun := solveLoop_no_provider cat r hnil (solveBound cat root) [root] []
    root.requires hr (by simp)
  have hne := check_run_ne_none cat n root hroot
  rw [check_ok_of_root cat n root hroot]
  rcases hrun with h | h
  · rw [h]
    rfl
  · exact absurd h hne

/-- Witness for check_root_missing_provider_unsat: with the single
package A requiring missing-lib the check answers Ok(false). -/
theorem check_root_missing_provider_unsat_witness : check missingCat "A" = .ok false :=
  check_root_missing_provider_unsat missingCat "A" pkgAOld ⟨"missing-lib", none⟩
    (by rfl) (by decide) (by decide)

/-- C4 counterexample: the version comparison is not transitive, hence
not a total order — with equal epochs and releases the version strings
"", "." and "a" form a strict cycle under the comparison. -/
theorem vercmp_not_transitive :
    vercmp verEmpty verDot = .lt ∧ vercmp verDot verAlpha = .lt ∧
    vercmp verAlpha verEmpty = .lt ∧ ¬ vercmp verEmpty verAlpha = .lt := by
  refine ⟨by rfl, by rfl, by rfl, by decide⟩

/-- C4 (amended): for any two versions exactly one of the three
comparison outcomes holds, and the comparison is antisymmetric
(comparing in the opposite order yields the opposite outcome), but the
relation is not transitive, as the counterexample shows. -/
theorem vercmp_trichotomy_antisym (a b : Version) :
    ((vercmp a b = .lt ∧ ¬ vercmp a b = .eq ∧ ¬ vercmp a b = .gt) ∨
      (¬ vercmp a b = .lt ∧ vercmp a b = .eq ∧ ¬ vercmp a b = .gt) ∨
      (¬ vercmp a b = .lt ∧ ¬ vercmp a b = .eq ∧ vercmp a b = .gt)) ∧
    vercmp b a = (vercmp a b).swap := by
  refine ⟨?_, vercmp_swap a b⟩
  cases h : vercmp a b
  · exact Or.inl ⟨rfl, by simp, by simp⟩
  · exact Or.inr (Or.inl ⟨by simp, rfl, by simp⟩)
  · exact Or.inr (Or.inr ⟨by simp, by simp, rfl⟩)

/-- Witness for vercmp_trichotomy_antisym at two concrete versions. -/
theorem vercmp_trichotomy_antisym_witness :
    vercmp ver2 ver1 = (vercmp ver1 ver2).swap :=
  (vercmp_trichotomy_antisym ver1 ver2).2

/-- C5: self-provide invariant — every catalog package appears in the
capability index as a provider of its own name at its own version, and
that provided version satisfies the requirement of the package's name
constrained to EQ its version, whatever the explicit provides list. -/
theorem selfProvide_satisfies (cat : Catalog) (p : Package) (hp : p ∈ cat.packages) :
    (p, some p.version) ∈
      (lookupProviders cat p.name).filter fun pv =>
        satisfiesConstraint pv.2 (some (Comparator.eq, p.version)) := by
  rw [List.mem_filter]
  refine ⟨selfProvide_mem_lookupProviders cat p hp, ?_⟩
  simp only [satisfiesConstraint, ordMatches, vercmp_self]
  rfl

/-- Witness for selfProvide_satisfies: the package A version 2, whose
explicit provides list is empty, satisfies the EQ requirement of its own
name at its own version. -/
theorem selfProvide_satisfies_witness :
    (pkgANew, some pkgANew.version) ∈
      (lookupProviders shadowCat pkgANew.name).filter fun pv =>
        satisfiesConstraint pv.2 (some (Comparator.eq, pkgANew.version)) :=
  selfProvide_satisfies shadowCat pkgANew (by decide)

/-- C6: the solver terminates on every catalog — the fuel bound used by
check always outlasts the closure loop, so the loop always yields a
result, circular requires included — and on the cyclic catalog where A
requires B and B requires A the check returns Ok(true). -/
theorem check_terminates (cat : Catalog) (n : String) (root : Package)
    (h : selectRoot cat n = some root) :
    solveLoop cat (solveBound cat root) [root] [] root.requires ≠ none ∧
    check cycCat "A" = .ok true :=
  ⟨check_run_ne_none cat n root h, by rfl⟩

/-- Witness for check_terminates on the cyclic catalog itself. -/
theorem check_terminates_witness :
    solveLoop cycCat (solveBound cycCat cycA) [cycA] [] cycA.requires ≠ none ∧
    check cycCat "A" = .ok true :=
  check_terminates cycCat "A" cycA (by rfl)

/-- C7: the segment-wise version-string comparison orders "1.2" before
"1.10" (digit runs compare as integers, not lexically), "1.0" before
"1.0.1" and "1.0a" before "1.0" (the exhaustion rules), and ignores
leading zeros of digit runs ("1.02" equals "1.2"). -/
theorem segCmp_examples :
    segCmp "1.2" "1.10" = .lt ∧ segCmp "1.0" "1.0.1" = .lt ∧
    segCmp "1.0a" "1.0" = .lt ∧ segCmp "1.02" "1.2" = .eq := by
  refine ⟨by rfl, by rfl, by rfl, by rfl⟩

/-- C8: the command-line caller maps every requested name to exactly one
of the three user-facing outcomes and processes every name — the outcome
list is as long as the request list, processing continues past any name
whatever its outcome produced, and each outcome is one of the three. -/
theorem runAll_processes_every_name (cat : Catalog) (names pre post : List String)
    (x : String) (h : names = pre ++ x :: post) :
    (runAll cat names).length = names.length ∧
    runAll cat names = runAll cat pre ++ reportOutcome cat x :: runAll cat post ∧
    (reportOutcome cat x = .satisfiable ∨ reportOutcome cat x = .unsatisfiable ∨
      reportOutcome cat x = .error) := by
  subst h
  refine ⟨by simp [runAll], by simp [runAll], ?_⟩
  rcases hc : check cat x with e | b
  · simp [reportOutcome, hc]
  · cases b <;> simp [reportOutcome, hc]

/-- Witness for runAll_processes_every_name: a request list whose first
name errors still gets its second name processed. -/
theorem runAll_processes_every_name_witness :
    (runAll shadowCat ["does-not-exist", "A"]).length =
      (["does-not-exist", "A"] : List String).length ∧
    runAll shadowCat ["does-not-exist", "A"] =
      runAll shadowCat [] ++
        reportOutcome shadowCat "does-not-exist" :: runAll shadowCat ["A"] ∧
    (reportOutcome shadowCat "does-not-exist" = .satisfiable ∨
      reportOutcome shadowCat "does-not-exist" = .unsatisfiable ∨
      reportOutcome shadowCat "does-not-exist" = .error) :=
  runAll_processes_every_name shadowCat _ [] ["A"] "does-not-exist" rfl

/-- C9 counterexample: a raw version record without an epoch attribute is
a deserialization error for the Version struct of repo.rs — the missing
epoch is an error, not a value normalized to 0. -/
theorem deVersion_missing_epoch_errors :
    repo.deVersion ⟨none, some "1.0", some "1"⟩ = .error "missing field epoch" ∧
    ¬ repo.deVersion ⟨none, some "1.0", some "1"⟩ = .ok ⟨"0", "1.0", "1"⟩ := by
  refine ⟨rfl, by simp [repo.deVersion]⟩

/-- C9 (amended): a successfully deserialized Version has all three
fields populated, copied verbatim from the raw attributes with epoch kept
as a string, and a record with a missing epoch attribute fails with an
error instead of getting epoch 0. -/
theorem deVersion_fields (r : repo.RawVersion) :
    (∀ v, repo.deVersion r = .ok v →
      r.epoch = some v.epoch ∧ r.ver = some v.ver ∧ r.rel = some v.rel) ∧
    (r.epoch = none → ∃ msg, repo.deVersion r = .error msg) := by
  obtain ⟨eo, vo, lo⟩ := r
  constructor
  · intro v hv
    cases eo with
    | none => exact absurd hv (by simp [repo.deVersion])
    | some e =>
      cases vo with
      | none => exact absurd hv (by simp [repo.deVersion])
      | some w =>
        cases lo with
        | none => exact absurd hv (by simp [repo.deVersion])
        | some l =>
          have hveq : (⟨e, w, l⟩ : repo.Version) = v := by
            simpa [repo.deVersion] using hv
          subst hveq
          exact ⟨rfl, rfl, rfl⟩
  · intro he
    cases eo with
    | none => exact ⟨"missing field epoch", rfl⟩
    | some e => exact Option.noConfusion he

/-- Witness for deVersion_fields at a concrete epoch-less raw record. -/
theorem deVersion_fields_witness :
    ∃ msg, repo.deVersion ⟨none, some "1", some "2"⟩ = .error msg :=
  (deVersion_fields ⟨none, some "1", some "2"⟩).2 rfl

/-- C10: invoked with only the program name in the argument list, main
panics with the message "Package name not found!" before loading any
configuration or contacting any repository, rather than returning an Err
result. -/
theorem mainModel_no_package_panics (prog : String) :
    mainModel [prog] = .panicked "Package name not found!" := rfl
